import Mathlib

/-!
Verification development for the `k8s-apply-lib` Go library.

The Go sources are shallowly embedded: byte slices become `List Nat`,
Go maps become association lists (Go map enumeration order is unspecified;
the list order stands for the enumeration order actually used in a run),
fallible calls return `Except GoErr`, and the external collaborators
(discovery REST mapper, dynamic client, YAML decoder, JSON marshaller,
controller-runtime owner-reference setter, text/template engine) are
parameters, since they live outside this repository.
-/

namespace K8sApplyLib

/-- Errors produced by the library.  Go errors are modelled structurally:
`base` is an `errors.New`-style error, `wrapped` is `fmt.Errorf` with `%w`,
and `resource` is the library's own `ResourceError` carrying kind,
apiVersion and resource name (from `errors.go`). -/
inductive GoErr where
  | base (msg : String)
  | wrapped (msg : String) (cause : GoErr)
  | resource (wrapperErrMsg kind apiVersion resourceName : String) (cause : GoErr)
deriving DecidableEq

/-- Decidable equality for `Except`, needed to evaluate concrete pipeline
outcomes. -/
instance instDecEqExcept {ε α : Type} [DecidableEq ε] [DecidableEq α] :
    DecidableEq (Except ε α) := fun a b =>
  match a, b with
  | .error e1, .error e2 =>
    match decEq e1 e2 with
    | isTrue h => isTrue (h ▸ rfl)
    | isFalse h => isFalse (fun hh => h (Except.error.inj hh))
  | .error _, .ok _ => isFalse (fun hh => Except.noConfusion hh)
  | .ok _, .error _ => isFalse (fun hh => Except.noConfusion hh)
  | .ok a1, .ok a2 =>
    match decEq a1 a2 with
    | isTrue h => isTrue (h ▸ rfl)
    | isFalse h => isFalse (fun hh => h (Except.ok.inj hh))

/-! ## Document splitter (`splitResourceIntoDocuments`, builder.go) -/

/-- The fixed document separator `"---\n"` used by
`splitResourceIntoDocuments` (bytes 45 45 45 10). -/
def yamlFileSeparator : List Nat := [45, 45, 45, 10]

/-- Prefix check on byte lists (`bytes.HasPrefix`); the outer match looks
only at the pattern so that `isPre [] l` reduces even for symbolic `l`. -/
def isPre : List Nat → List Nat → Bool
  | [], _ => true
  | a :: as, l =>
    match l with
    | [] => false
    | b :: bs => (a == b) && isPre as bs

/-- Substring check: does `pat` occur (contiguously) inside `l`?
Bool-level counterpart of "the input contains the document separator". -/
def containsSeq (pat : List Nat) : List Nat → Bool
  | [] => pat.isEmpty
  | x :: xs => isPre pat (x :: xs) || containsSeq pat xs

/-- Worker for `bytes.Split` specialised to the 4-byte separator `"---\n"`:
scans byte by byte; at a separator occurrence it closes the current section
(`acc`, reversed) and skips the remaining 3 separator bytes via the `skip`
counter.  This models Go's leftmost-first, non-overlapping split. -/
def splitAux : List Nat → Nat → List Nat → List (List Nat)
  | [], _, acc => [acc.reverse]
  | _ :: xs, k + 1, acc => splitAux xs k acc
  | x :: xs, 0, acc =>
    match isPre yamlFileSeparator (x :: xs) with
    | true => acc.reverse :: splitAux xs 3 []
    | false => splitAux xs 0 (x :: acc)

/-- Go `splitResourceIntoDocuments` (builder.go): split on `"---\n"` with
`bytes.Split`, then drop empty sections. -/
def splitResourceIntoDocuments (resourceBytes : List Nat) : List (List Nat) :=
  (splitAux resourceBytes 0 []).filter (fun sec => !sec.isEmpty)

/-- Join: "joined by the separator", taken from the round-trip property's own
words: concatenate the documents with `"---\n"` in between. -/
def joinedBySeparator : List (List Nat) → List Nat
  | [] => []
  | [d] => d
  | d :: rest => d ++ yamlFileSeparator ++ joinedBySeparator rest

/-- Modelled from the spec: the "(trimmed) input" of the splitter contract.
Go's `strings.TrimSpace` on ASCII whitespace (tab, LF, VT, FF, CR, space);
the splitter itself never calls it, it is only needed to state the claim. -/
def goTrimBytes (l : List Nat) : List Nat :=
  ((l.dropWhile (fun b => decide (b = 32) || decide (9 ≤ b ∧ b ≤ 13))).reverse.dropWhile
    (fun b => decide (b = 32) || decide (9 ≤ b ∧ b ≤ 13))).reverse

/-! ### Splitter lemmas -/

theorem isPre_append_of_isPre {p l : List Nat} (m : List Nat)
    (h : isPre p l = true) : isPre p (l ++ m) = true := by
  induction p generalizing l with
  | nil => simp [isPre]
  | cons a p' ih =>
    cases l with
    | nil => simp [isPre] at h
    | cons b l' =>
      rw [show isPre (a :: p') (b :: l') = ((a == b) && isPre p' l') from rfl,
        Bool.and_eq_true] at h
      show ((a == b) && isPre p' (l' ++ m)) = true
      rw [Bool.and_eq_true]
      exact ⟨h.1, ih h.2⟩

theorem eq_append_of_isPre {p l : List Nat}
    (h : isPre p l = true) : ∃ t, l = p ++ t := by
  induction p generalizing l with
  | nil => exact ⟨l, rfl⟩
  | cons a p' ih =>
    cases l with
    | nil => simp [isPre] at h
    | cons b l' =>
      simp only [isPre, Bool.and_eq_true, beq_iff_eq] at h
      obtain ⟨t, ht⟩ := ih h.2
      exact ⟨t, by simp [h.1, ht]⟩

theorem sep_not_prefix_mid (a b : List Nat) (ha : a ≠ [])
    (hc : containsSeq yamlFileSeparator a = false) :
    isPre yamlFileSeparator (a ++ (yamlFileSeparator ++ b)) = false := by
  match a, ha with
  | [x], _ => simp [yamlFileSeparator, isPre]
  | [x, y], _ => simp [yamlFileSeparator, isPre]
  | [x, y, z], _ => simp [yamlFileSeparator, isPre]
  | x :: y :: z :: w :: rest, _ =>
    simp only [containsSeq, Bool.or_eq_false_iff] at hc
    have h1 : isPre yamlFileSeparator (x :: y :: z :: w :: rest) = false := hc.1
    simp only [yamlFileSeparator, isPre, Bool.and_eq_true, beq_iff_eq,
      Bool.and_eq_false_iff, List.cons_append] at h1 ⊢
    rcases h1 with h | h
    · exact Or.inl h
    · rcases h with h | h
      · exact Or.inr (Or.inl h)
      · rcases h with h | h
        · exact Or.inr (Or.inr (Or.inl h))
        · rcases h with h | h
          · exact Or.inr (Or.inr (Or.inr (Or.inl h)))
          · simp [isPre] at h

theorem splitAux_sep_append (b : List Nat) (acc : List Nat) :
    splitAux (yamlFileSeparator ++ b) 0 acc = acc.reverse :: splitAux b 0 [] := rfl

theorem splitAux_append_sep (a : List Nat)
    (hc : containsSeq yamlFileSeparator a = false) :
    ∀ acc b, splitAux (a ++ (yamlFileSeparator ++ b)) 0 acc
      = (acc.reverse ++ a) :: splitAux b 0 [] := by
  induction a with
  | nil => intro acc b; simpa using splitAux_sep_append b acc
  | cons x a' ih =>
    intro acc b
    simp only [containsSeq, Bool.or_eq_false_iff] at hc
    have hnp := sep_not_prefix_mid (x :: a') b (by simp) (by
      simp only [containsSeq, Bool.or_eq_false_iff]; exact hc)
    have h2 : ((x :: a') ++ (yamlFileSeparator ++ b)) = x :: (a' ++ (yamlFileSeparator ++ b)) := by
      simp
    rw [h2]
    simp only [splitAux]
    rw [show isPre yamlFileSeparator (x :: (a' ++ (yamlFileSeparator ++ b)))
        = false from by simpa using hnp]
    rw [ih hc.2 (x :: acc) b]
    simp

theorem splitAux_of_not_contains (l : List Nat)
    (hc : containsSeq yamlFileSeparator l = false) :
    ∀ acc, splitAux l 0 acc = [acc.reverse ++ l] := by
  induction l with
  | nil => intro acc; simp [splitAux]
  | cons x xs ih =>
    intro acc
    simp only [containsSeq, Bool.or_eq_false_iff] at hc
    simp only [splitAux]
    rw [show isPre yamlFileSeparator (x :: xs) = false from hc.1]
    rw [ih hc.2 (x :: acc)]
    simp

theorem split_append_sep (a b : List Nat)
    (hc : containsSeq yamlFileSeparator a = false) :
    splitResourceIntoDocuments (a ++ (yamlFileSeparator ++ b))
      = (if a.isEmpty then [] else [a]) ++ splitResourceIntoDocuments b := by
  unfold splitResourceIntoDocuments
  rw [splitAux_append_sep a hc [] b]
  cases a with
  | nil => simp
  | cons x a' => simp [List.filter]

theorem split_of_not_contains (l : List Nat)
    (hc : containsSeq yamlFileSeparator l = false) :
    splitResourceIntoDocuments l = if l.isEmpty then [] else [l] := by
  unfold splitResourceIntoDocuments
  rw [splitAux_of_not_contains l hc []]
  cases l with
  | nil => simp
  | cons x l' => simp [List.filter]

theorem contains_decomp (x : List Nat)
    (hc : containsSeq yamlFileSeparator x = true) :
    ∃ a b, x = a ++ (yamlFileSeparator ++ b) ∧
      containsSeq yamlFileSeparator a = false := by
  induction x with
  | nil => simp [containsSeq, yamlFileSeparator] at hc
  | cons y ys ih =>
    cases hp : isPre yamlFileSeparator (y :: ys) with
    | true =>
      obtain ⟨t, ht⟩ := eq_append_of_isPre hp
      exact ⟨[], t, by simpa using ht, rfl⟩
    | false =>
      have hys : containsSeq yamlFileSeparator ys = true := by
        simp only [containsSeq, hp, Bool.false_or] at hc
        exact hc
      obtain ⟨a', b', hab, ha'⟩ := ih hys
      refine ⟨y :: a', b', by simp [hab], ?_⟩
      have hpa : isPre yamlFileSeparator (y :: a') = false := by
        cases hEq : isPre yamlFileSeparator (y :: a') with
        | false => rfl
        | true =>
          exfalso
          have happ := isPre_append_of_isPre (yamlFileSeparator ++ b') hEq
          have hshape : (y :: a') ++ (yamlFileSeparator ++ b') = y :: ys := by
            simp [hab]
          rw [hshape, hp] at happ
          exact Bool.false_ne_true happ
      simp [containsSeq, hpa, ha']

theorem mem_split_props :
    ∀ (n : Nat) (x : List Nat), x.length ≤ n →
      ∀ d ∈ splitResourceIntoDocuments x,
        containsSeq yamlFileSeparator d = false ∧ d ≠ [] := by
  intro n
  induction n with
  | zero =>
    intro x hx d hd
    have hx0 : x = [] := List.length_eq_zero.mp (Nat.le_zero.mp hx)
    subst hx0
    simp [splitResourceIntoDocuments, splitAux] at hd
  | succ n ih =>
    intro x hx d hd
    cases hcx : containsSeq yamlFileSeparator x with
    | false =>
      rw [split_of_not_contains x hcx] at hd
      cases x with
      | nil => simp at hd
      | cons y ys =>
        simp at hd
        subst hd
        exact ⟨hcx, by simp⟩
    | true =>
      obtain ⟨a, b, hab, hca⟩ := contains_decomp x hcx
      subst hab
      rw [split_append_sep a b hca] at hd
      rcases List.mem_append.mp hd with h | h
      · cases a with
        | nil => simp at h
        | cons z a' =>
          simp at h
          subst h
          exact ⟨hca, by simp⟩
      · have hlen : b.length ≤ n := by
          simp only [List.length_append, yamlFileSeparator, List.length_cons,
            List.length_nil] at hx
          omega
        exact ih b hlen d h

/-- C8: splitting the separator-joined concatenation of non-empty,
separator-free documents returns exactly the original documents in
order. -/
theorem c8_split_join_roundtrip (docs : List (List Nat))
    (h : ∀ d ∈ docs, d ≠ [] ∧ containsSeq yamlFileSeparator d = false) :
    splitResourceIntoDocuments (joinedBySeparator docs) = docs := by
  induction docs with
  | nil => rfl
  | cons d rest ih =>
    have hd := h d (by simp)
    cases rest with
    | nil =>
      rw [show joinedBySeparator [d] = d from rfl, split_of_not_contains d hd.2]
      simp [hd.1]
    | cons e rest' =>
      have hshape : joinedBySeparator (d :: e :: rest')
          = d ++ (yamlFileSeparator ++ joinedBySeparator (e :: rest')) := by
        simp [joinedBySeparator]
      rw [hshape, split_append_sep _ _ hd.2,
        ih (fun d' hd' => h d' (by simp [hd']))]
      simp [hd.1]

/-- Witness for C8 at a concrete pair of documents. -/
theorem c8_split_join_roundtrip_witness :
    splitResourceIntoDocuments (joinedBySeparator [[97], [98]]) = [[97], [98]] :=
  c8_split_join_roundtrip [[97], [98]] (by decide)

/-- C9 counterexample: for the separator-free, non-empty input
`" a"` (bytes 32 97) the splitter returns the raw input, not the trimmed
input, so "one section equal to the trimmed input" fails. -/
theorem c9_counterexample :
    splitResourceIntoDocuments [32, 97] = [[32, 97]] ∧
    goTrimBytes [32, 97] = [97] ∧
    splitResourceIntoDocuments [32, 97] ≠ [goTrimBytes [32, 97]] := by decide

/-- C9 (amended): for every input containing no document separator the
splitter returns exactly one section equal to the input itself (not
trimmed) when the input is non-empty and zero sections when it is empty;
splitting any already-split document returns that document unchanged. -/
theorem c9_single_document (x : List Nat) :
    (containsSeq yamlFileSeparator x = false →
      splitResourceIntoDocuments x = if x.isEmpty then [] else [x]) ∧
    (∀ d ∈ splitResourceIntoDocuments x, splitResourceIntoDocuments d = [d]) := by
  refine ⟨split_of_not_contains x, ?_⟩
  intro d hd
  obtain ⟨hfree, hne⟩ := mem_split_props x.length x le_rfl d hd
  rw [split_of_not_contains d hfree]
  simp [hne]

/-- Witness for C9 (amended): a separator-free input and a section of a
two-document input, both at concrete bytes. -/
theorem c9_single_document_witness :
    splitResourceIntoDocuments [32, 97]
      = (if ([32, 97] : List Nat).isEmpty then [] else [[32, 97]]) ∧
    splitResourceIntoDocuments [97] = [[97]] :=
  ⟨(c9_single_document [32, 97]).1 (by decide),
   (c9_single_document [97, 45, 45, 45, 10]).2 [97] (by decide)⟩

/-- C10: the splitter cuts exactly at every occurrence of the four bytes
`"---\n"` (and nowhere else): any separator-free block before an
occurrence becomes one section, a separator-free input is never split
(even if it ends in `"---"` or contains `"---"` followed by another
byte), and `"---\n"` in the middle of a line is a split point. -/
theorem c10_split_points :
    (∀ a b : List Nat, containsSeq yamlFileSeparator a = false →
      splitResourceIntoDocuments (a ++ (yamlFileSeparator ++ b))
        = (if a.isEmpty then [] else [a]) ++ splitResourceIntoDocuments b) ∧
    (∀ x : List Nat, containsSeq yamlFileSeparator x = false →
      splitResourceIntoDocuments x = if x.isEmpty then [] else [x]) ∧
    splitResourceIntoDocuments [97, 45, 45, 45] = [[97, 45, 45, 45]] ∧
    splitResourceIntoDocuments [97, 45, 45, 45, 98] = [[97, 45, 45, 45, 98]] ∧
    splitResourceIntoDocuments [97, 98, 45, 45, 45, 10, 99, 100]
      = [[97, 98], [99, 100]] :=
  ⟨fun a b hc => split_append_sep a b hc, fun x hc => split_of_not_contains x hc,
   by decide, by decide, by decide⟩

/-- Witness for C10 at concrete blocks around one separator occurrence. -/
theorem c10_split_points_witness :
    splitResourceIntoDocuments ([97] ++ (yamlFileSeparator ++ [98]))
      = (if ([97] : List Nat).isEmpty then [] else [[97]])
        ++ splitResourceIntoDocuments [98] :=
  c10_split_points.1 [97] [98] (by decide)

/-! ## Resource applier (`New`, `ApplyWithOwner`, apply.go) -/

/-- Group and kind of a manifest (`schema.GroupKind`). -/
structure GroupKind where
  group : String
  kind : String
deriving DecidableEq

/-- The declared logical type of a manifest (`schema.GroupVersionKind`). -/
structure GroupVersionKind where
  group : String
  version : String
  kind : String
deriving DecidableEq

/-- The API server's addressable resource name (`schema.GroupVersionResource`). -/
structure GroupVersionResource where
  group : String
  version : String
  resource : String
deriving DecidableEq

/-- REST scope of a resource: namespaced or cluster-wide
(`gvr.Scope.Name() == meta.RESTScopeNameNamespace` in apply.go). -/
inductive RESTScopeKind where
  | namespaced
  | cluster
deriving DecidableEq

/-- Result of `gvrMapper.RESTMapping` (`meta.RESTMapping`): the resolved
resource plus its scope. -/
structure RESTMapping where
  resource : GroupVersionResource
  scope : RESTScopeKind
deriving DecidableEq

/-- One owner reference on an object (`metav1.OwnerReference`). -/
structure OwnerReference where
  apiVersion : String
  kind : String
  name : String
  controller : Bool
deriving DecidableEq

/-- The owning resource handed to `ApplyWithOwner` (`metav1.Object`),
restricted to the identity fields the apply path reads. -/
structure OwnerObject where
  apiVersion : String
  kind : String
  name : String
  ns : Option String
deriving DecidableEq

/-- The decoded, schema-less manifest (`unstructured.Unstructured`):
the envelope fields the apply path touches (`SetNamespace` writes `ns`,
`ctrl.SetControllerReference` writes `ownerReferences`) plus an opaque
remainder standing for every other field of the document. -/
structure Unstructured where
  apiVersion : String
  kind : String
  name : String
  ns : Option String
  ownerReferences : List OwnerReference
  otherFields : List (String × String)
deriving DecidableEq

/-- One patch request issued through the dynamic client
(`dr.Patch(ctx, name, types.ApplyPatchType, jsondata, PatchOptions{FieldManager})`):
the resolved resource, the handle's namespace (`none` for a cluster-wide
handle), the target name, the marshalled body, the desired object the body
was marshalled from, and the field manager carried in the patch options. -/
structure PatchCall where
  resource : GroupVersionResource
  ns : Option String
  name : String
  body : List Nat
  desired : Unstructured
  fieldManager : String
deriving DecidableEq

/-- The `Applier` (apply.go).  `gvrMapper` and `dynClientPatch` are the two
capabilities stored in the Go struct; `setOwnerRef`, `decodeYaml` and
`jsonMarshal` model the external library calls
(`ctrl.SetControllerReference`, the YAML decoding serializer, and
`json.Marshal`) the apply path makes, carried here as parameters because
they live outside this repository.  `ctrl.SetControllerReference` only
validates ownership and rewrites the object's `ownerReferences` field, so
it is modelled as returning the new owner-reference list. -/
structure Applier where
  gvrMapper : GroupKind → String → Except GoErr RESTMapping
  dynClientPatch : PatchCall → Except GoErr Unit
  setOwnerRef : OwnerObject → Unstructured → Except GoErr (List OwnerReference)
  decodeYaml : List Nat → Except GoErr (Unstructured × GroupVersionKind)
  jsonMarshal : Unstructured → Except GoErr (List Nat)
  fieldManager : String

/-- Go `gvk.GroupKind()`. -/
def gvkGroupKind (gvk : GroupVersionKind) : GroupKind :=
  ⟨gvk.group, gvk.kind⟩

/-- Go `createOrUpdateResource` (apply.go): marshal the desired object to
JSON and issue one server-side-apply patch.  The second component is the
list of patch requests actually sent over the network. -/
def createOrUpdateResource (ac : Applier) (desiredResource : Unstructured)
    (drResource : GroupVersionResource) (drNs : Option String) :
    Except GoErr Unit × List PatchCall :=
  match ac.jsonMarshal desiredResource with
  | .error e =>
    (.error (.resource "error while parsing resource to json"
      desiredResource.kind desiredResource.apiVersion desiredResource.name e), [])
  | .ok jsondata =>
    let call : PatchCall :=
      ⟨drResource, drNs, desiredResource.name, jsondata, desiredResource,
        ac.fieldManager⟩
    match ac.dynClientPatch call with
    | .error e =>
      (.error (.resource "error while patching"
        desiredResource.kind desiredResource.apiVersion desiredResource.name e),
        [call])
    | .ok _ => (.ok (), [call])

/-- The owner-reference step of `ApplyWithOwner` (apply.go), split on the
outcome of `ctrl.SetControllerReference`: a failure aborts with a wrapped
error before any network call, success rewrites the object's
`ownerReferences` and proceeds to the patch. -/
def afterOwnerSet (ac : Applier) (ns : String) (stamped : Unstructured)
    (gvr : RESTMapping) :
    Except GoErr (List OwnerReference) → Except GoErr Unit × List PatchCall
  | .error e =>
    (.error (.wrapped
      "could not apply YAML doccument: could not set controller reference" e),
      [])
  | .ok refs =>
    createOrUpdateResource ac { stamped with ownerReferences := refs }
      gvr.resource (some ns)

/-- The namespaced branch of step 5 of `ApplyWithOwner` (apply.go): set the
controller reference when an owner was supplied (a nil owner skips the
step), then patch through the namespace-scoped handle. -/
def applyNamespaced (ac : Applier) (ns : String) (stamped : Unstructured)
    (gvr : RESTMapping) :
    Option OwnerObject → Except GoErr Unit × List PatchCall
  | some owner => afterOwnerSet ac ns stamped gvr (ac.setOwnerRef owner stamped)
  | none => createOrUpdateResource ac stamped gvr.resource (some ns)

/-- Step 5 of `ApplyWithOwner` (apply.go), split on the resolved REST
scope: namespaced resources get the namespace stamped
(`k8sObjects.SetNamespace(namespace)`) before the owner step, cluster-wide
resources are patched untouched through a cluster-wide handle. -/
def applyScoped (ac : Applier) (ns : String)
    (owningResource : Option OwnerObject) (k8sObjects : Unstructured)
    (gvr : RESTMapping) : RESTScopeKind → Except GoErr Unit × List PatchCall
  | .namespaced =>
    applyNamespaced ac ns { k8sObjects with ns := some ns } gvr owningResource
  | .cluster => createOrUpdateResource ac k8sObjects gvr.resource none

/-- Step 5 of `ApplyWithOwner` (apply.go): dispatch on
`gvr.Scope.Name() == meta.RESTScopeNameNamespace`. -/
def applyMapped (ac : Applier) (ns : String)
    (owningResource : Option OwnerObject) (k8sObjects : Unstructured)
    (gvr : RESTMapping) : Except GoErr Unit × List PatchCall :=
  applyScoped ac ns owningResource k8sObjects gvr gvr.scope

/-- Step 4 of `ApplyWithOwner` (apply.go), split on the outcome of
`gvrMapper.RESTMapping`. -/
def afterMapping (ac : Applier) (ns : String)
    (owningResource : Option OwnerObject) (k8sObjects : Unstructured) :
    Except GoErr RESTMapping → Except GoErr Unit × List PatchCall
  | .error e => (.error (.wrapped "could find GVK mapper" e), [])
  | .ok gvr => applyMapped ac ns owningResource k8sObjects gvr

/-- Step 4 of `ApplyWithOwner` (apply.go): resolve the decoded GVK to a
GVR with scope. -/
def applyDecoded (ac : Applier) (ns : String)
    (owningResource : Option OwnerObject) (k8sObjects : Unstructured)
    (gvk : GroupVersionKind) : Except GoErr Unit × List PatchCall :=
  afterMapping ac ns owningResource k8sObjects
    (ac.gvrMapper (gvkGroupKind gvk) gvk.version)

/-- Step 3 of `ApplyWithOwner` (apply.go), split on the outcome of the
decoding serializer. -/
def afterDecode (ac : Applier) (ns : String)
    (owningResource : Option OwnerObject) :
    Except GoErr (Unstructured × GroupVersionKind) →
      Except GoErr Unit × List PatchCall
  | .error e => (.error (.wrapped "could not decode YAML doccument" e), [])
  | .ok (k8sObjects, gvk) => applyDecoded ac ns owningResource k8sObjects gvk

/-- Go `ApplyWithOwner` (apply.go): decode the document, resolve GVK to
GVR+scope, stamp the namespace and optionally the owner reference for
namespaced resources, and patch.  The second component is the list of
patch requests actually sent.  The source's single function body is
transcribed as the staged definitions above, one per numbered step. -/
def ApplyWithOwner (ac : Applier) (yamlResource : List Nat) (ns : String)
    (owningResource : Option OwnerObject) : Except GoErr Unit × List PatchCall :=
  afterDecode ac ns owningResource (ac.decodeYaml yamlResource)

/-- Go `Apply` (apply.go): `ApplyWithOwner` with a nil owner. -/
def Apply (ac : Applier) (yamlResource : List Nat) (ns : String) :
    Except GoErr Unit × List PatchCall :=
  ApplyWithOwner ac yamlResource ns none

/-- Go's `strings.TrimSpace` restricted to the whitespace characters
representable here (tab, LF, VT, FF, CR, space, NEL, NBSP). -/
def goIsSpace (c : Char) : Bool :=
  decide (c.toNat = 32) || decide (9 ≤ c.toNat ∧ c.toNat ≤ 13) ||
    decide (c.toNat = 133) || decide (c.toNat = 160)

/-- Go `strings.TrimSpace` on a Go string. -/
def goTrimSpace (s : String) : String :=
  ⟨((s.data.dropWhile goIsSpace).reverse.dropWhile goIsSpace).reverse⟩

/-- Outcome of `createGVRMapper` and `createDynamicClient` for a given
cluster configuration, plus the external library primitives: everything
`New` needs from outside this repository. -/
structure ClusterCapabilities where
  gvrMapperResult : Except GoErr (GroupKind → String → Except GoErr RESTMapping)
  dynClientResult : Except GoErr (PatchCall → Except GoErr Unit)
  setOwnerRef : OwnerObject → Unstructured → Except GoErr (List OwnerReference)
  decodeYaml : List Nat → Except GoErr (Unstructured × GroupVersionKind)
  jsonMarshal : Unstructured → Except GoErr (List Nat)

/-- Go `New` (apply.go): reject an empty/whitespace field manager, then build
the GVR mapper and the dynamic client, failing on either, and return the
assembled `Applier`. -/
def New (caps : ClusterCapabilities) (fieldManager : String) :
    Except GoErr Applier :=
  if goTrimSpace fieldManager = "" then
    .error (.base "cannot create new Applier: fieldManager must not be empty")
  else
    match caps.gvrMapperResult with
    | .error e => .error (.wrapped "error while creating GVR mapper" e)
    | .ok m =>
      match caps.dynClientResult with
      | .error e => .error (.wrapped "error while creating dynamic client" e)
      | .ok p =>
        .ok ⟨m, p, caps.setOwnerRef, caps.decodeYaml, caps.jsonMarshal,
          fieldManager⟩

/-! ### Applier lemmas -/

theorem createOrUpdate_trace (ac : Applier) (o : Unstructured)
    (r : GroupVersionResource) (nso : Option String) :
    ∀ call ∈ (createOrUpdateResource ac o r nso).2,
      call.ns = nso ∧ call.desired = o ∧ call.fieldManager = ac.fieldManager ∧
        call.name = o.name ∧ call.resource = r := by
  intro call hcall
  unfold createOrUpdateResource at hcall
  cases hm : ac.jsonMarshal o with
  | error e => simp [hm] at hcall
  | ok j =>
    simp only [hm] at hcall
    cases hp : ac.dynClientPatch ⟨r, nso, o.name, j, o, ac.fieldManager⟩ with
    | error e =>
      simp only [hp] at hcall
      simp at hcall
      subst hcall
      exact ⟨rfl, rfl, rfl, rfl, rfl⟩
    | ok u =>
      simp only [hp] at hcall
      simp at hcall
      subst hcall
      exact ⟨rfl, rfl, rfl, rfl, rfl⟩

theorem createOrUpdate_ok_length (ac : Applier) (o : Unstructured)
    (r : GroupVersionResource) (nso : Option String)
    (h : (createOrUpdateResource ac o r nso).1 = .ok ()) :
    ((createOrUpdateResource ac o r nso).2).length = 1 := by
  unfold createOrUpdateResource at h ⊢
  cases hm : ac.jsonMarshal o with
  | error e => simp [hm] at h
  | ok j =>
    simp only [hm] at h ⊢
    cases hp : ac.dynClientPatch ⟨r, nso, o.name, j, o, ac.fieldManager⟩ with
    | error e => simp [hp] at h
    | ok u => simp [hp]

theorem applyWithOwner_shape (ac : Applier) (doc : List Nat) (ns : String)
    (owner : Option OwnerObject) :
    (∃ e, ApplyWithOwner ac doc ns owner = (.error e, [])) ∨
    (∃ o r nso, ApplyWithOwner ac doc ns owner
      = createOrUpdateResource ac o r nso) := by
  unfold ApplyWithOwner
  cases ac.decodeYaml doc with
  | error e => exact Or.inl ⟨_, rfl⟩
  | ok pair =>
    obtain ⟨obj, gvk⟩ := pair
    simp only [afterDecode, applyDecoded]
    cases ac.gvrMapper (gvkGroupKind gvk) gvk.version with
    | error e => exact Or.inl ⟨_, rfl⟩
    | ok rm =>
      simp only [afterMapping, applyMapped]
      cases rm.scope with
      | namespaced =>
        simp only [applyScoped]
        cases owner with
        | none => exact Or.inr ⟨_, _, _, rfl⟩
        | some o =>
          cases hso : ac.setOwnerRef o { obj with ns := some ns } with
          | error e =>
            refine Or.inl ⟨.wrapped
              "could not apply YAML doccument: could not set controller reference"
              e, ?_⟩
            simp only [applyNamespaced]
            rw [hso]
            rfl
          | ok refs =>
            refine Or.inr ⟨⟨obj.apiVersion, obj.kind, obj.name, some ns, refs,
              obj.otherFields⟩, rm.resource, some ns, ?_⟩
            simp only [applyNamespaced]
            rw [hso]
            rfl
      | cluster => exact Or.inr ⟨_, _, _, rfl⟩

/-- C1: for a namespaced-scope document, `ApplyWithOwner` stamps the
caller-supplied namespace onto the decoded object (overwriting whatever
namespace the document carried) and every patch request it issues targets
that namespace and carries it in the payload. -/
theorem c1_namespaced_stamps_namespace (ac : Applier) (doc : List Nat)
    (ns : String) (owner : Option OwnerObject) (obj : Unstructured)
    (gvk : GroupVersionKind) (rm : RESTMapping)
    (hdec : ac.decodeYaml doc = .ok (obj, gvk))
    (hmap : ac.gvrMapper (gvkGroupKind gvk) gvk.version = .ok rm)
    (hscope : rm.scope = .namespaced) :
    ∀ call ∈ (ApplyWithOwner ac doc ns owner).2,
      call.ns = some ns ∧ call.desired.ns = some ns := by
  intro call hcall
  unfold ApplyWithOwner at hcall
  rw [hdec] at hcall
  simp only [afterDecode, applyDecoded] at hcall
  rw [hmap] at hcall
  simp only [afterMapping, applyMapped] at hcall
  rw [hscope] at hcall
  simp only [applyScoped] at hcall
  cases owner with
  | none =>
    simp only [applyNamespaced] at hcall
    obtain ⟨h1, h2, -⟩ := createOrUpdate_trace ac _ _ _ call hcall
    exact ⟨h1, by rw [h2]⟩
  | some o =>
    simp only [applyNamespaced] at hcall
    cases hso : ac.setOwnerRef o { obj with ns := some ns } with
    | error e =>
      rw [hso] at hcall
      simp only [afterOwnerSet] at hcall
      simp at hcall
    | ok refs =>
      rw [hso] at hcall
      simp only [afterOwnerSet] at hcall
      obtain ⟨h1, h2, -⟩ := createOrUpdate_trace ac _ _ _ call hcall
      exact ⟨h1, by rw [h2]⟩

/-- C4: for a cluster-scope document, `ApplyWithOwner` behaves identically
with and without an owner (owner-reference injection is never attempted),
and every patch request uses the cluster-wide handle with the decoded
object unchanged as payload. -/
theorem c4_cluster_scope_untouched (ac : Applier) (doc : List Nat)
    (ns : String) (owner : Option OwnerObject) (obj : Unstructured)
    (gvk : GroupVersionKind) (rm : RESTMapping)
    (hdec : ac.decodeYaml doc = .ok (obj, gvk))
    (hmap : ac.gvrMapper (gvkGroupKind gvk) gvk.version = .ok rm)
    (hscope : rm.scope = .cluster) :
    ApplyWithOwner ac doc ns owner = ApplyWithOwner ac doc ns none ∧
    ∀ call ∈ (ApplyWithOwner ac doc ns owner).2,
      call.ns = none ∧ call.desired = obj := by
  have he : ∀ ow, ApplyWithOwner ac doc ns ow
      = createOrUpdateResource ac obj rm.resource none := by
    intro ow
    unfold ApplyWithOwner
    rw [hdec]
    simp only [afterDecode, applyDecoded]
    rw [hmap]
    simp only [afterMapping, applyMapped]
    rw [hscope]
    simp only [applyScoped]
  constructor
  · rw [he owner, he none]
  · intro call hcall
    rw [he owner] at hcall
    obtain ⟨h1, h2, -⟩ := createOrUpdate_trace ac _ _ _ call hcall
    exact ⟨h1, h2⟩

/-- C5: one successful `ApplyWithOwner` call issues exactly one patch
request, and a failure at decoding, at GVK-to-GVR resolution, or at
setting the owner reference issues none. -/
theorem c5_patch_request_count (ac : Applier) (doc : List Nat) (ns : String)
    (owner : Option OwnerObject) :
    ((ApplyWithOwner ac doc ns owner).1 = .ok () →
      ((ApplyWithOwner ac doc ns owner).2).length = 1) ∧
    (∀ e, ac.decodeYaml doc = .error e →
      (ApplyWithOwner ac doc ns owner).2 = []) ∧
    (∀ obj gvk e, ac.decodeYaml doc = .ok (obj, gvk) →
      ac.gvrMapper (gvkGroupKind gvk) gvk.version = .error e →
      (ApplyWithOwner ac doc ns owner).2 = []) ∧
    (∀ obj gvk rm o e, ac.decodeYaml doc = .ok (obj, gvk) →
      ac.gvrMapper (gvkGroupKind gvk) gvk.version = .ok rm →
      rm.scope = .namespaced → owner = some o →
      ac.setOwnerRef o { obj with ns := some ns } = .error e →
      (ApplyWithOwner ac doc ns owner).2 = []) := by
  refine ⟨?_, ?_, ?_, ?_⟩
  · intro h
    rcases applyWithOwner_shape ac doc ns owner with ⟨e, he⟩ | ⟨o, r, nso, hd⟩
    · rw [he] at h
      simp at h
    · rw [hd] at h ⊢
      exact createOrUpdate_ok_length ac o r nso h
  · intro e he
    unfold ApplyWithOwner
    rw [he]
    rfl
  · intro obj gvk e hdec hmap
    unfold ApplyWithOwner
    rw [hdec]
    simp only [afterDecode, applyDecoded]
    rw [hmap]
    rfl
  · intro obj gvk rm o e hdec hmap hscope howner hso
    subst howner
    unfold ApplyWithOwner
    rw [hdec]
    simp only [afterDecode, applyDecoded]
    rw [hmap]
    simp only [afterMapping, applyMapped]
    rw [hscope]
    simp only [applyScoped, applyNamespaced]
    rw [hso]
    rfl

/-- Every patch request sent by `ApplyWithOwner` carries the applier's
field manager. -/
theorem applyWithOwner_fieldManager (ac : Applier) (doc : List Nat)
    (ns : String) (owner : Option OwnerObject) :
    ∀ call ∈ (ApplyWithOwner ac doc ns owner).2,
      call.fieldManager = ac.fieldManager := by
  intro call hcall
  rcases applyWithOwner_shape ac doc ns owner with ⟨e, he⟩ | ⟨o, r, nso, hd⟩
  · rw [he] at hcall
    simp at hcall
  · rw [hd] at hcall
    exact (createOrUpdate_trace ac o r nso call hcall).2.2.1

/-- C3: `New` rejects an empty or all-whitespace field manager with a
configuration error regardless of the cluster capabilities; for any other
field manager it succeeds as soon as the GVR mapper and dynamic client can
be built, and the returned applier carries that exact field manager into
every patch request it ever issues. -/
theorem c3_new_field_manager (caps : ClusterCapabilities) (fm : String) :
    (goTrimSpace fm = "" → New caps fm
      = .error (.base "cannot create new Applier: fieldManager must not be empty")) ∧
    (goTrimSpace fm ≠ "" →
      ∀ m p, caps.gvrMapperResult = .ok m → caps.dynClientResult = .ok p →
        ∃ a, New caps fm = .ok a ∧ a.fieldManager = fm ∧
          ∀ doc ns owner call, call ∈ (ApplyWithOwner a doc ns owner).2 →
            call.fieldManager = fm) := by
  constructor
  · intro h
    unfold New
    rw [if_pos h]
  · intro h m p hm hp
    refine ⟨⟨m, p, caps.setOwnerRef, caps.decodeYaml, caps.jsonMarshal, fm⟩, ?_, rfl, ?_⟩
    · unfold New
      rw [if_neg h, hm, hp]
    · intro doc ns owner call hcall
      exact applyWithOwner_fieldManager _ doc ns owner call hcall

/-! ### Concrete fixtures and witnesses for the applier claims -/

/-- Concrete namespaced REST mapping (`v1/serviceaccounts`). -/
def rmNsEx : RESTMapping := ⟨⟨"", "v1", "serviceaccounts"⟩, .namespaced⟩

/-- Concrete cluster-wide REST mapping (`v1/namespaces`). -/
def rmClEx : RESTMapping := ⟨⟨"", "v1", "namespaces"⟩, .cluster⟩

/-- Concrete decoded ServiceAccount that already declares a namespace. -/
def objEx : Unstructured :=
  ⟨"v1", "ServiceAccount", "svc-a", some "other", [], [("labels", "x")]⟩

/-- GVK of `objEx`. -/
def gvkEx : GroupVersionKind := ⟨"", "v1", "ServiceAccount"⟩

/-- Concrete decoded Namespace manifest (cluster-scoped). -/
def objClEx : Unstructured := ⟨"v1", "Namespace", "ns-x", none, [], []⟩

/-- GVK of `objClEx`. -/
def gvkClEx : GroupVersionKind := ⟨"", "v1", "Namespace"⟩

/-- A concrete owner object. -/
def ownerEx : OwnerObject := ⟨"v1", "Deployment", "owner-dep", some "ns1"⟩

/-- Applier whose externals decode `objEx`, resolve to the namespaced
mapping and accept every patch. -/
def acNsEx : Applier :=
  ⟨fun _ _ => .ok rmNsEx, fun _ => .ok (),
   fun _ _ => .ok [⟨"v1", "Deployment", "owner-dep", true⟩],
   fun _ => .ok (objEx, gvkEx), fun _ => .ok [111], "my-field-manager"⟩

/-- Applier whose externals decode `objClEx` and resolve to the
cluster-wide mapping. -/
def acClEx : Applier :=
  ⟨fun _ _ => .ok rmClEx, fun _ => .ok (), fun _ _ => .ok [],
   fun _ => .ok (objClEx, gvkClEx), fun _ => .ok [111], "my-field-manager"⟩

/-- Applier whose decoder always fails. -/
def acBadEx : Applier :=
  ⟨fun _ _ => .ok rmNsEx, fun _ => .ok (), fun _ _ => .ok [],
   fun _ => .error (.base "bad yaml"), fun _ => .ok [111], "my-field-manager"⟩

/-- The single patch call `acNsEx` issues when applying into `ns1`. -/
def callNsEx : PatchCall :=
  ⟨⟨"", "v1", "serviceaccounts"⟩, some "ns1", "svc-a", [111],
   ⟨"v1", "ServiceAccount", "svc-a", some "ns1", [], [("labels", "x")]⟩,
   "my-field-manager"⟩

/-- The single patch call `acClEx` issues. -/
def callClEx : PatchCall :=
  ⟨⟨"", "v1", "namespaces"⟩, none, "ns-x", [111], objClEx, "my-field-manager"⟩

/-- Witness for C1: the document declared namespace `other`, the caller
asked for `ns1`, and the issued patch targets and carries `ns1`. -/
theorem c1_namespaced_stamps_namespace_witness :
    callNsEx.ns = some "ns1" ∧ callNsEx.desired.ns = some "ns1" :=
  c1_namespaced_stamps_namespace acNsEx [1] "ns1" none objEx gvkEx rmNsEx
    rfl rfl rfl callNsEx (by decide)

/-- Witness for C4: applying a cluster-scoped manifest with an owner is
the same as without, and the issued patch is cluster-wide with the decoded
object untouched. -/
theorem c4_cluster_scope_untouched_witness :
    ApplyWithOwner acClEx [1] "ns1" (some ownerEx)
      = ApplyWithOwner acClEx [1] "ns1" none ∧
    callClEx.ns = none ∧ callClEx.desired = objClEx :=
  ⟨(c4_cluster_scope_untouched acClEx [1] "ns1" (some ownerEx) objClEx
      gvkClEx rmClEx rfl rfl rfl).1,
   (c4_cluster_scope_untouched acClEx [1] "ns1" (some ownerEx) objClEx
      gvkClEx rmClEx rfl rfl rfl).2 callClEx (by decide)⟩

/-- Witness for C5: a successful apply issues exactly one patch request, a
decode failure issues none. -/
theorem c5_patch_request_count_witness :
    ((ApplyWithOwner acNsEx [1] "ns1" none).2).length = 1 ∧
    (ApplyWithOwner acBadEx [1] "ns1" none).2 = [] :=
  ⟨(c5_patch_request_count acNsEx [1] "ns1" none).1 rfl,
   (c5_patch_request_count acBadEx [1] "ns1" none).2.1 (.base "bad yaml") rfl⟩

/-- Concrete GVR mapper capability. -/
def mapperEx : GroupKind → String → Except GoErr RESTMapping :=
  fun _ _ => .ok rmNsEx

/-- Concrete dynamic-client patch capability. -/
def patcherEx : PatchCall → Except GoErr Unit := fun _ => .ok ()

/-- Concrete successful cluster capabilities. -/
def capsEx : ClusterCapabilities :=
  ⟨.ok mapperEx, .ok patcherEx, fun _ _ => .ok [],
   fun _ => .ok (objEx, gvkEx), fun _ => .ok [111]⟩

/-- Witness for C3: a whitespace field manager is rejected, a proper one
is accepted and carried into every patch call. -/
theorem c3_new_field_manager_witness :
    (New capsEx "  "
      = .error (.base "cannot create new Applier: fieldManager must not be empty")) ∧
    (∃ a, New capsEx "my-field-manager" = .ok a ∧
      a.fieldManager = "my-field-manager" ∧
      ∀ doc ns owner call, call ∈ (ApplyWithOwner a doc ns owner).2 →
        call.fieldManager = "my-field-manager") :=
  ⟨(c3_new_field_manager capsEx "  ").1 (by decide),
   (c3_new_field_manager capsEx "my-field-manager").2 (by decide)
     mapperEx patcherEx rfl rfl⟩

/-! ## Pipeline builder (`Builder`, builder.go) -/

/-- Opaque caller-supplied template data (`interface{}`); the modelled
engine fragment below renders only literal text and quoted-string actions,
which never consult the data, so its content is irrelevant here. -/
abbrev TemplateData : Type := Unit

/-- Scanner state of the modelled template engine: plain text, one `{`
seen, action opened (expecting a quote), inside a string literal, closing
quote seen (expecting `}`), one closing `}` seen. -/
inductive TmplMode where
  | text
  | brace1
  | actionQ
  | lit
  | end1
  | end2
deriving DecidableEq

/-- Modelled from the spec: the out-of-scope Go `text/template` engine
("a standard text-substitution engine"), restricted to the fragment needed
here: literal text is emitted verbatim, an action of the form
`\x7b\x7b"s"\x7d\x7d` (bytes 123 123 34 ... 34 125 125) emits the string
literal `s`, any other action and any unterminated action is a parse
error.  A lone `\x7b` is literal text, as in Go. -/
def renderBytes : TmplMode → List Nat → Except GoErr (List Nat)
  | .text, [] => .ok []
  | .text, b :: rest =>
    if b = 123 then renderBytes .brace1 rest
    else
      match renderBytes .text rest with
      | .error e => .error e
      | .ok t => .ok (b :: t)
  | .brace1, [] => .ok [123]
  | .brace1, b :: rest =>
    if b = 123 then renderBytes .actionQ rest
    else
      match renderBytes .text rest with
      | .error e => .error e
      | .ok t => .ok (123 :: b :: t)
  | .actionQ, [] => .error (.base "template: unexpected EOF in action")
  | .actionQ, b :: rest =>
    if b = 34 then renderBytes .lit rest
    else .error (.base "template: unsupported action")
  | .lit, [] => .error (.base "template: unexpected EOF in action")
  | .lit, b :: rest =>
    if b = 34 then renderBytes .end1 rest
    else
      match renderBytes .lit rest with
      | .error e => .error e
      | .ok t => .ok (b :: t)
  | .end1, [] => .error (.base "template: unexpected EOF in action")
  | .end1, b :: rest =>
    if b = 125 then renderBytes .end2 rest
    else .error (.base "template: malformed action close")
  | .end2, [] => .error (.base "template: unexpected EOF in action")
  | .end2, b :: rest =>
    if b = 125 then renderBytes .text rest
    else .error (.base "template: malformed action close")

/-- Go `tpl.Parse` followed by `parsed.ExecuteTemplate` on the modelled
engine fragment; the data object is never consulted by this fragment. -/
def goTemplateRender (templateText : List Nat) (_templateObject : Option TemplateData) :
    Except GoErr (List Nat) :=
  renderBytes .text templateText

/-- Go `renderTemplate` (builder.go): run the engine and wrap any failure
with the file name. -/
def renderTemplate (filename : String) (templateText : List Nat)
    (templateObject : Option TemplateData) : Except GoErr (List Nat) :=
  match goTemplateRender templateText templateObject with
  | .error e =>
    .error (.wrapped ("failed to parse or render template for file " ++ filename) e)
  | .ok r => .ok r

/-- The loop body of `renderTemplates` (builder.go): every file in the map
is rendered against `fileToTemplate[filename]` — which is nil (`none`)
when the file has no template data — and its stored bytes are replaced. -/
def renderEach (templates : List (String × TemplateData)) :
    List (String × List Nat) → Except GoErr (List (String × List Nat))
  | [] => .ok []
  | (filename, resource) :: rest =>
    match renderTemplate filename resource (List.lookup filename templates) with
    | .error e => .error e
    | .ok transformed =>
      match renderEach templates rest with
      | .error e => .error e
      | .ok rest2 => .ok ((filename, transformed) :: rest2)

/-- A resource collector (`PredicatedResourceCollector`, builder.go); its
`Collect` sink is modelled by the event trace below. -/
structure PredicatedResourceCollector where
  predicate : List Nat → Except GoErr Bool

/-- The apply filter (`ApplyFilter`, builder.go). -/
structure ApplyFilter where
  predicate : List Nat → Except GoErr Bool

/-- The `Builder` (builder.go).  The two Go maps are association lists in
iteration order; `applierFn` is the injected `applier` interface. -/
structure Builder where
  applierFn : List Nat → String → Option OwnerObject → Except GoErr Unit
  fileToGenericResource : List (String × List Nat)
  fileToTemplate : List (String × TemplateData)
  owningResource : Option OwnerObject
  ns : String
  predicatedCollectors : List PredicatedResourceCollector
  applyFilter : Option ApplyFilter

/-- Go `renderTemplates` (builder.go): skip everything when no file has
template data, otherwise render every file in place, aborting on the
first failure. -/
def renderTemplates (ab : Builder) : Except GoErr Builder :=
  if ab.fileToTemplate.isEmpty then .ok ab
  else
    match renderEach ab.fileToTemplate ab.fileToGenericResource with
    | .error e => .error e
    | .ok files2 => .ok { ab with fileToGenericResource := files2 }

/-- Observable pipeline events: document `doc` handed to the `Collect`
sink of collector number `idx`, or an `ApplyWithOwner` call made for
`doc`. -/
inductive Ev where
  | collect (idx : Nat) (doc : List Nat)
  | apply (doc : List Nat)
deriving DecidableEq

/-- Go `runCollectors` (builder.go), carrying the index of the current
collector: ask each collector's predicate in registration order; on a
match emit a collect event, on a predicate error abort with a wrapped
error (collects already made stay in the trace). -/
def runCollectorsFrom (doc : List Nat) :
    List PredicatedResourceCollector → Nat → Except GoErr Unit × List Ev
  | [], _ => (.ok (), [])
  | c :: rest, i =>
    match c.predicate doc with
    | .error e => (.error (.wrapped "error matching predicate against doc" e), [])
    | .ok true =>
      let r := runCollectorsFrom doc rest (i + 1)
      (r.1, .collect i doc :: r.2)
    | .ok false => runCollectorsFrom doc rest (i + 1)

/-- Go `runCollectors` (builder.go). -/
def runCollectors (ab : Builder) (doc : List Nat) :
    Except GoErr Unit × List Ev :=
  runCollectorsFrom doc ab.predicatedCollectors 0

/-- The `ApplyWithOwner` call at the end of `applyDoc` (builder.go); the
call is recorded in the trace whether or not it fails. -/
def applyStep (ab : Builder) (filename : String) (yamlDoc : List Nat)
    (ev : List Ev) : Except GoErr Unit × List Ev :=
  match ab.applierFn yamlDoc ab.ns ab.owningResource with
  | .error e =>
    (.error (.wrapped ("resource application failed for file " ++ filename) e),
      ev ++ [.apply yamlDoc])
  | .ok _ => (.ok (), ev ++ [.apply yamlDoc])

/-- Go `applyDoc` (builder.go): collect first, then filter (a `false`
predicate skips the apply but keeps the collects), then apply. -/
def applyDoc (ab : Builder) (filename : String) (yamlDoc : List Nat) :
    Except GoErr Unit × List Ev :=
  match runCollectors ab yamlDoc with
  | (.error e, ev) =>
    (.error (.wrapped ("resource collection failed for file " ++ filename) e), ev)
  | (.ok _, ev) =>
    match ab.applyFilter with
    | some f =>
      match f.predicate yamlDoc with
      | .error e =>
        (.error (.wrapped ("filtering resource failed for file " ++ filename) e), ev)
      | .ok false => (.ok (), ev)
      | .ok true => applyStep ab filename yamlDoc ev
    | none => applyStep ab filename yamlDoc ev

/-- The per-document loop of `ExecuteApply` (builder.go): first failure
aborts, traces concatenate. -/
def processDocs (ab : Builder) :
    List (String × List Nat) → Except GoErr Unit × List Ev
  | [] => (.ok (), [])
  | (filename, d) :: rest =>
    match applyDoc ab filename d with
    | (.error e, ev) => (.error e, ev)
    | (.ok _, ev) =>
      let r := processDocs ab rest
      (r.1, ev ++ r.2)

/-- Go `splitYamlDocs` (builder.go) flattened to the file-then-document
iteration order of `ExecuteApply`. -/
def docSequence (files : List (String × List Nat)) :
    List (String × List Nat) :=
  (files.map (fun p => (splitResourceIntoDocuments p.2).map (fun d => (p.1, d)))).flatten

/-- Go `ExecuteApply` (builder.go): render, split, then process every
document; the second component is the observable event trace. -/
def ExecuteApply (ab : Builder) : Except GoErr Unit × List Ev :=
  match renderTemplates ab with
  | .error e => (.error e, [])
  | .ok ab2 => processDocs ab2 (docSequence ab2.fileToGenericResource)

/-- The documents handed to collector `i`, in trace order. -/
def collectedBy (i : Nat) (ev : List Ev) : List (List Nat) :=
  ev.filterMap (fun e =>
    match e with
    | .collect j d => if j = i then some d else none
    | .apply _ => none)

/-- The documents for which an apply call was made, in trace order. -/
def appliedDocs (ev : List Ev) : List (List Nat) :=
  ev.filterMap (fun e =>
    match e with
    | .apply d => some d
    | .collect _ _ => none)

/-- Whether a caller-supplied predicate returned `(true, nil)` for a
document. -/
def predicateOkTrue (p : List Nat → Except GoErr Bool) (d : List Nat) : Bool :=
  match p d with
  | .ok true => true
  | .ok false => false
  | .error _ => false

/-- Whether the configured filter admits a document (no filter admits
everything). -/
def passesFilter : Option ApplyFilter → List Nat → Bool
  | none, _ => true
  | some f, d => predicateOkTrue f.predicate d

/-! ### Template rendering lemmas (C2) -/

theorem renderBytes_text_brace (rest : List Nat) :
    renderBytes .text (123 :: rest) = renderBytes .brace1 rest := by
  simp [renderBytes]

theorem renderBytes_text_cons_ne (b : Nat) (rest : List Nat) (hb : ¬ b = 123) :
    renderBytes .text (b :: rest)
      = match renderBytes .text rest with
        | .error e => .error e
        | .ok t => .ok (b :: t) := by
  simp [renderBytes, hb]

theorem renderBytes_brace1_cons_ne (c : Nat) (rest : List Nat)
    (hc : ¬ c = 123) :
    renderBytes .brace1 (c :: rest)
      = match renderBytes .text rest with
        | .error e => .error e
        | .ok t => .ok (123 :: c :: t) := by
  simp [renderBytes, hc]

/-- The modelled engine leaves action-free text (no `\x7b\x7b` anywhere)
unchanged, matching Go `text/template` on templates without actions. -/
theorem renderBytes_text_actionFree :
    ∀ (n : Nat) (l : List Nat), l.length ≤ n →
      containsSeq [123, 123] l = false → renderBytes .text l = .ok l := by
  intro n
  induction n with
  | zero =>
    intro l hl _
    have hnil : l = [] := List.length_eq_zero.mp (Nat.le_zero.mp hl)
    subst hnil
    rfl
  | succ n ih =>
    intro l hl hfree
    cases l with
    | nil => rfl
    | cons b rest =>
      by_cases hb : b = 123
      · subst hb
        rw [renderBytes_text_brace]
        cases rest with
        | nil => rfl
        | cons c rest2 =>
          have hc : ¬ c = 123 := by
            intro hc
            subst hc
            simp [containsSeq, isPre] at hfree
          have hfree2 : containsSeq [123, 123] rest2 = false := by
            simp only [containsSeq, Bool.or_eq_false_iff] at hfree
            exact hfree.2.2
          have hlen : rest2.length ≤ n := by
            simp only [List.length_cons] at hl
            omega
          rw [renderBytes_brace1_cons_ne c rest2 hc, ih rest2 hlen hfree2]
      · have hfree2 : containsSeq [123, 123] rest = false := by
          simp only [containsSeq, Bool.or_eq_false_iff] at hfree
          exact hfree.2
        have hlen : rest.length ≤ n := by
          simp only [List.length_cons] at hl
          omega
        rw [renderBytes_text_cons_ne b rest hb, ih rest hlen hfree2]

/-- Go `renderEach` keeps a file with no template data and action-free
content exactly as it was. -/
theorem renderEach_mem (templates : List (String × TemplateData)) :
    ∀ (files out : List (String × List Nat)),
      renderEach templates files = .ok out →
      ∀ fn c, (fn, c) ∈ files → List.lookup fn templates = none →
        containsSeq [123, 123] c = false → (fn, c) ∈ out := by
  intro files
  induction files with
  | nil =>
    intro out h fn c hmem
    simp at hmem
  | cons p rest ih =>
    intro out h fn c hmem hlk hfree
    obtain ⟨pfn, pc⟩ := p
    simp only [renderEach] at h
    cases hr : renderTemplate pfn pc (List.lookup pfn templates) with
    | error e =>
      simp only [hr] at h
      exact absurd h (by simp)
    | ok t =>
      simp only [hr] at h
      cases hrest : renderEach templates rest with
      | error e =>
        simp only [hrest] at h
        exact absurd h (by simp)
      | ok rest2 =>
        simp only [hrest] at h
        simp only [Except.ok.injEq] at h
        subst h
        rcases List.mem_cons.mp hmem with heq | hmem2
        · simp only [Prod.mk.injEq] at heq
          obtain ⟨h1, h2⟩ := heq
          subst h1
          subst h2
          have hpc : renderTemplate fn c (List.lookup fn templates) = .ok c := by
            rw [hlk]
            unfold renderTemplate goTemplateRender
            rw [renderBytes_text_actionFree c.length c le_rfl hfree]
          rw [hpc] at hr
          simp only [Except.ok.injEq] at hr
          subst hr
          exact List.mem_cons_self _ _
        · exact List.mem_cons_of_mem _ (ih rest2 hrest fn c hmem2 hlk hfree)

/-- File set of the C2 counterexample: `plain` has no template data but
contains the action `\x7b\x7b"x"\x7d\x7d`; `tmpl` has template data. -/
def filesC2 : List (String × List Nat) :=
  [("plain", [123, 123, 34, 120, 34, 125, 125]), ("tmpl", [97])]

/-- Template map of the C2 counterexample: only `tmpl` has data. -/
def tmplC2 : List (String × TemplateData) := [("tmpl", ())]

/-- Builder of the C2 counterexample. -/
def bC2 : Builder :=
  ⟨fun _ _ _ => .ok (), filesC2, tmplC2, none, "ns", [], none⟩

/-- C2 counterexample: the file `plain` has no template data, yet because
another file has template data the render phase pushes `plain` through the
engine too and rewrites its bytes from `\x7b\x7b"x"\x7d\x7d` to `x`. -/
theorem c2_counterexample :
    List.lookup "plain" bC2.fileToTemplate = none ∧
    (∃ ab2, renderTemplates bC2 = .ok ab2 ∧
      List.lookup "plain" ab2.fileToGenericResource = some [120]) ∧
    List.lookup "plain" bC2.fileToGenericResource
      = some [123, 123, 34, 120, 34, 125, 125] ∧
    some [120] ≠ some [123, 123, 34, 120, 34, 125, 125] := by
  refine ⟨by decide,
    ⟨{ bC2 with fileToGenericResource := [("plain", [120]), ("tmpl", [97])] },
      rfl, by decide⟩,
    by decide, by decide⟩

/-- C2 (amended): a file registered with no template data keeps its bytes
byte-for-byte through the render phase provided its content contains no
template action opener (the two bytes `\x7b\x7b`); in particular this holds
for every file when no file has template data.  Without that proviso the
claim fails (see the counterexample): when any file has template data,
every file is pushed through the engine with nil data. -/
theorem c2_render_preserves_plain_files (ab ab2 : Builder)
    (filename : String) (content : List Nat)
    (hmem : (filename, content) ∈ ab.fileToGenericResource)
    (hnotmpl : List.lookup filename ab.fileToTemplate = none)
    (hfree : containsSeq [123, 123] content = false)
    (hok : renderTemplates ab = .ok ab2) :
    (filename, content) ∈ ab2.fileToGenericResource := by
  unfold renderTemplates at hok
  by_cases hempty : ab.fileToTemplate.isEmpty
  · rw [if_pos hempty] at hok
    simp only [Except.ok.injEq] at hok
    subst hok
    exact hmem
  · rw [if_neg hempty] at hok
    cases hre : renderEach ab.fileToTemplate ab.fileToGenericResource with
    | error e =>
      simp only [hre] at hok
      exact absurd hok (by simp)
    | ok files2 =>
      simp only [hre] at hok
      simp only [Except.ok.injEq] at hok
      subst hok
      exact renderEach_mem _ _ _ hre filename content hmem hnotmpl hfree

/-- Builder for the C2 witness: `plain2` is action-free with no template
data, `tmpl` has template data. -/
def bC2b : Builder :=
  ⟨fun _ _ _ => .ok (), [("plain2", [104, 105]), ("tmpl", [97])], tmplC2,
    none, "ns", [], none⟩

/-- Render result of `bC2b` (identical files: both render to themselves). -/
def bC2bRendered : Builder :=
  ⟨fun _ _ _ => .ok (), [("plain2", [104, 105]), ("tmpl", [97])], tmplC2,
    none, "ns", [], none⟩

/-- Witness for C2 (amended) at a concrete builder. -/
theorem c2_render_preserves_plain_files_witness :
    ("plain2", [104, 105]) ∈ bC2bRendered.fileToGenericResource :=
  c2_render_preserves_plain_files bC2b bC2bRendered "plain2" [104, 105]
    (by decide) (by decide) (by decide) rfl

/-! ### Collector and pipeline trace lemmas (C6, C7) -/

theorem collectedBy_cons_collect_eq (i : Nat) (d : List Nat) (ev : List Ev) :
    collectedBy i (.collect i d :: ev) = d :: collectedBy i ev := by
  simp [collectedBy]

theorem collectedBy_cons_collect_ne (i j : Nat) (d : List Nat) (ev : List Ev)
    (h : ¬ j = i) :
    collectedBy i (.collect j d :: ev) = collectedBy i ev := by
  simp [collectedBy, h]

theorem collectedBy_cons_apply (i : Nat) (d : List Nat) (ev : List Ev) :
    collectedBy i (.apply d :: ev) = collectedBy i ev := by
  simp [collectedBy]

theorem collectedBy_append (i : Nat) (ev1 ev2 : List Ev) :
    collectedBy i (ev1 ++ ev2) = collectedBy i ev1 ++ collectedBy i ev2 := by
  simp [collectedBy]

theorem appliedDocs_append (ev1 ev2 : List Ev) :
    appliedDocs (ev1 ++ ev2) = appliedDocs ev1 ++ appliedDocs ev2 := by
  simp [appliedDocs]

theorem collectedBy_nil (i : Nat) : collectedBy i [] = [] := rfl

theorem appliedDocs_nil : appliedDocs [] = [] := rfl

theorem runCollectorsFrom_collect_ge (doc : List Nat) :
    ∀ (cs : List PredicatedResourceCollector) (base j : Nat) (d : List Nat),
      Ev.collect j d ∈ (runCollectorsFrom doc cs base).2 → base ≤ j := by
  intro cs
  induction cs with
  | nil =>
    intro base j d h
    simp [runCollectorsFrom] at h
  | cons c rest ih =>
    intro base j d h
    cases hp : c.predicate doc with
    | error e =>
      simp only [runCollectorsFrom, hp] at h
      simp at h
    | ok b =>
      cases b with
      | true =>
        simp only [runCollectorsFrom, hp] at h
        simp only [List.mem_cons] at h
        rcases h with h1 | h2
        · have : j = base := by
            have := Ev.collect.injEq j d base doc
            rw [this] at h1
            exact h1.1
          omega
        · have := ih (base + 1) j d h2
          omega
      | false =>
        simp only [runCollectorsFrom, hp] at h
        have := ih (base + 1) j d h
        omega

theorem runCollectorsFrom_no_apply (doc : List Nat) :
    ∀ (cs : List PredicatedResourceCollector) (base : Nat),
      appliedDocs (runCollectorsFrom doc cs base).2 = [] := by
  intro cs
  induction cs with
  | nil => intro base; rfl
  | cons c rest ih =>
    intro base
    cases hp : c.predicate doc with
    | error e => simp only [runCollectorsFrom, hp]; rfl
    | ok b =>
      cases b with
      | true =>
        simp only [runCollectorsFrom, hp]
        show appliedDocs (.collect base doc :: (runCollectorsFrom doc rest (base + 1)).2) = []
        simp only [appliedDocs, List.filterMap_cons]
        exact ih (base + 1)
      | false =>
        simp only [runCollectorsFrom, hp]
        exact ih (base + 1)

theorem collectedBy_eq_nil_of_lt (i : Nat) (ev : List Ev)
    (h : ∀ j d, Ev.collect j d ∈ ev → i < j) : collectedBy i ev = [] := by
  induction ev with
  | nil => rfl
  | cons e rest ih =>
    cases e with
    | collect j d =>
      have hj := h j d (by simp)
      rw [collectedBy_cons_collect_ne i j d rest (by omega)]
      exact ih (fun j2 d2 hm => h j2 d2 (by simp [hm]))
    | apply d =>
      rw [collectedBy_cons_apply]
      exact ih (fun j2 d2 hm => h j2 d2 (by simp [hm]))

theorem runCollectorsFrom_ok_collected (doc : List Nat) :
    ∀ (cs : List PredicatedResourceCollector) (base : Nat) (u : Unit)
      (ev : List Ev),
      runCollectorsFrom doc cs base = (.ok u, ev) →
      ∀ k c, cs[k]? = some c →
        collectedBy (base + k) ev
          = if predicateOkTrue c.predicate doc then [doc] else [] := by
  intro cs
  induction cs with
  | nil =>
    intro base u ev h k c hk
    simp at hk
  | cons c0 rest ih =>
    intro base u ev h k c hk
    cases hp : c0.predicate doc with
    | error e =>
      simp only [runCollectorsFrom, hp] at h
      simp at h
    | ok b =>
      cases b with
      | true =>
        simp only [runCollectorsFrom, hp] at h
        cases hr : runCollectorsFrom doc rest (base + 1) with
        | mk r1 ev2 =>
          rw [hr] at h
          simp only [Prod.mk.injEq] at h
          obtain ⟨h1, h2⟩ := h
          subst h1
          cases k with
          | zero =>
            have hc : c = c0 := by
              simp at hk
              exact hk.symm
            subst hc
            rw [← h2, Nat.add_zero, collectedBy_cons_collect_eq]
            have hnil : collectedBy base ev2 = [] := by
              apply collectedBy_eq_nil_of_lt
              intro j d hm
              have hge := runCollectorsFrom_collect_ge doc rest (base + 1) j d
                (by rw [hr]; exact hm)
              omega
            rw [hnil]
            have hptrue : predicateOkTrue c.predicate doc = true := by
              unfold predicateOkTrue
              rw [hp]
            rw [hptrue]
            simp
          | succ k2 =>
            have hk2 : rest[k2]? = some c := by simpa using hk
            rw [← h2, collectedBy_cons_collect_ne _ _ _ _ (by omega)]
            have := ih (base + 1) u ev2 (by rw [hr]) k2 c hk2
            rw [show base + (k2 + 1) = base + 1 + k2 from by omega]
            exact this
      | false =>
        simp only [runCollectorsFrom, hp] at h
        cases k with
        | zero =>
          have hc : c = c0 := by
            simp at hk
            exact hk.symm
          subst hc
          have hnil : collectedBy base ev = [] := by
            apply collectedBy_eq_nil_of_lt
            intro j d hm
            have hge := runCollectorsFrom_collect_ge doc rest (base + 1) j d
              (by rw [h]; exact hm)
            omega
          rw [Nat.add_zero, hnil]
          have hpfalse : predicateOkTrue c.predicate doc = false := by
            unfold predicateOkTrue
            rw [hp]
          rw [hpfalse]
          simp
        | succ k2 =>
          have hk2 : rest[k2]? = some c := by simpa using hk
          have := ih (base + 1) u ev h k2 c hk2
          rw [show base + (k2 + 1) = base + 1 + k2 from by omega]
          exact this

theorem if_singleton_append {c : Bool} (d : List Nat) (xs : List (List Nat)) :
    (if c = true then [d] else []) ++ xs = if c = true then d :: xs else xs := by
  cases c <;> simp

theorem applyDoc_ok (ab : Builder) (fn : String) (d : List Nat) (u : Unit)
    (ev : List Ev) (h : applyDoc ab fn d = (.ok u, ev)) :
    (∀ k c, ab.predicatedCollectors[k]? = some c →
      collectedBy k ev = if predicateOkTrue c.predicate d then [d] else []) ∧
    appliedDocs ev = (if passesFilter ab.applyFilter d then [d] else []) := by
  cases hrc : runCollectors ab d with
  | mk r1 ev1 =>
    cases r1 with
    | error e =>
      unfold applyDoc at h
      rw [hrc] at h
      simp at h
    | ok u1 =>
      have hrun : runCollectorsFrom d ab.predicatedCollectors 0 = (.ok u1, ev1) := hrc
      have hcoll : ∀ k c, ab.predicatedCollectors[k]? = some c →
          collectedBy k ev1 = if predicateOkTrue c.predicate d then [d] else [] := by
        intro k c hk
        have := runCollectorsFrom_ok_collected d ab.predicatedCollectors 0 u1 ev1
          hrun k c hk
        simpa using this
      have hnoap : appliedDocs ev1 = [] := by
        have := runCollectorsFrom_no_apply d ab.predicatedCollectors 0
        rw [hrun] at this
        exact this
      unfold applyDoc at h
      rw [hrc] at h
      cases hf : ab.applyFilter with
      | none =>
        simp only [hf] at h
        unfold applyStep at h
        cases ha : ab.applierFn d ab.ns ab.owningResource with
        | error e =>
          rw [ha] at h
          simp at h
        | ok u2 =>
          rw [ha] at h
          simp only [Prod.mk.injEq] at h
          obtain ⟨-, h2⟩ := h
          subst h2
          refine ⟨?_, ?_⟩
          · intro k c hk
            rw [collectedBy_append, hcoll k c hk]
            simp [collectedBy]
          · rw [appliedDocs_append, hnoap]
            simp [appliedDocs, passesFilter, hf]
      | some f =>
        simp only [hf] at h
        cases hp : f.predicate d with
        | error e =>
          rw [hp] at h
          simp at h
        | ok b =>
          cases b with
          | false =>
            rw [hp] at h
            simp only [Prod.mk.injEq] at h
            obtain ⟨-, h2⟩ := h
            subst h2
            refine ⟨hcoll, ?_⟩
            rw [hnoap]
            have hpf : passesFilter (some f) d = false := by
              show predicateOkTrue f.predicate d = false
              unfold predicateOkTrue
              rw [hp]
            rw [hpf]
            simp
          | true =>
            rw [hp] at h
            unfold applyStep at h
            cases ha : ab.applierFn d ab.ns ab.owningResource with
            | error e =>
              rw [ha] at h
              simp at h
            | ok u2 =>
              rw [ha] at h
              simp only [Prod.mk.injEq] at h
              obtain ⟨-, h2⟩ := h
              subst h2
              refine ⟨?_, ?_⟩
              · intro k c hk
                rw [collectedBy_append, hcoll k c hk]
                simp [collectedBy]
              · rw [appliedDocs_append, hnoap]
                have hpf : passesFilter (some f) d = true := by
                  show predicateOkTrue f.predicate d = true
                  unfold predicateOkTrue
                  rw [hp]
                rw [hpf]
                simp [appliedDocs]

theorem processDocs_ok (ab : Builder) :
    ∀ (l : List (String × List Nat)) (ev : List Ev),
      processDocs ab l = (.ok (), ev) →
      (∀ k c, ab.predicatedCollectors[k]? = some c →
        collectedBy k ev
          = (l.map Prod.snd).filter (fun d => predicateOkTrue c.predicate d)) ∧
      appliedDocs ev
        = (l.map Prod.snd).filter (fun d => passesFilter ab.applyFilter d) := by
  intro l
  induction l with
  | nil =>
    intro ev h
    simp only [processDocs, Prod.mk.injEq] at h
    obtain ⟨-, h2⟩ := h
    subst h2
    exact ⟨fun k c _ => rfl, rfl⟩
  | cons p rest ih =>
    intro ev h
    obtain ⟨fn, d⟩ := p
    cases ha : applyDoc ab fn d with
    | mk r1 ev1 =>
      cases r1 with
      | error e =>
        simp only [processDocs, ha] at h
        simp at h
      | ok u1 =>
        simp only [processDocs, ha] at h
        cases hr : processDocs ab rest with
        | mk r2 ev2 =>
          rw [hr] at h
          simp only [Prod.mk.injEq] at h
          obtain ⟨h1, h2⟩ := h
          subst h1
          subst h2
          obtain ⟨ihc, iha⟩ := ih ev2 hr
          obtain ⟨hc1, ha1⟩ := applyDoc_ok ab fn d u1 ev1 ha
          refine ⟨?_, ?_⟩
          · intro k c hk
            rw [collectedBy_append, hc1 k c hk, ihc k c hk]
            simp only [List.map_cons, List.filter_cons]
            rw [if_singleton_append]
          · rw [appliedDocs_append, ha1, iha]
            simp only [List.map_cons, List.filter_cons]
            rw [if_singleton_append]

theorem renderTemplates_preserves (ab ab2 : Builder)
    (h : renderTemplates ab = .ok ab2) :
    ab2.predicatedCollectors = ab.predicatedCollectors ∧
    ab2.applyFilter = ab.applyFilter := by
  unfold renderTemplates at h
  by_cases he : ab.fileToTemplate.isEmpty
  · rw [if_pos he] at h
    simp only [Except.ok.injEq] at h
    subst h
    exact ⟨rfl, rfl⟩
  · rw [if_neg he] at h
    cases hre : renderEach ab.fileToTemplate ab.fileToGenericResource with
    | error e =>
      simp only [hre] at h
      exact absurd h (by simp)
    | ok files2 =>
      simp only [hre] at h
      simp only [Except.ok.injEq] at h
      subst h
      exact ⟨rfl, rfl⟩

/-- C6: on a successful `ExecuteApply`, every registered collector's sink
received exactly the documents matching its predicate, once each, in
file-then-document order, independently of the filter; apply calls were
made exactly for the filter-admitted documents — so a document the filter
rejects is still offered to every collector. -/
theorem c6_collectors_observe_all (ab ab2 : Builder) (ev : List Ev)
    (hrender : renderTemplates ab = .ok ab2)
    (hrun : ExecuteApply ab = (.ok (), ev)) :
    (∀ k c, ab.predicatedCollectors[k]? = some c →
      collectedBy k ev
        = ((docSequence ab2.fileToGenericResource).map Prod.snd).filter
            (fun d => predicateOkTrue c.predicate d)) ∧
    appliedDocs ev
      = ((docSequence ab2.fileToGenericResource).map Prod.snd).filter
          (fun d => passesFilter ab.applyFilter d) := by
  unfold ExecuteApply at hrun
  simp only [hrender] at hrun
  obtain ⟨hc, hf⟩ := renderTemplates_preserves ab ab2 hrender
  have := processDocs_ok ab2 (docSequence ab2.fileToGenericResource) ev hrun
  rw [hc, hf] at this
  exact this

/-- Collector of the C6 witness: matches exactly the document `[97]`. -/
def collEx : PredicatedResourceCollector := ⟨fun d => .ok (decide (d = [97]))⟩

/-- Filter of the C6 witness: admits exactly the document `[98]`. -/
def filtEx : ApplyFilter := ⟨fun d => .ok (decide (d = [98]))⟩

/-- Builder of the C6 witness: one file holding two documents, one
collector, one filter that rejects the first document. -/
def bC6 : Builder :=
  ⟨fun _ _ _ => .ok (), [("f", [97, 45, 45, 45, 10, 98])], [], none, "ns",
    [collEx], some filtEx⟩

/-- Witness for C6: document `[97]` is collected but filtered out of
applying; document `[98]` is applied but not collected. -/
theorem c6_collectors_observe_all_witness :
    collectedBy 0 [Ev.collect 0 [97], Ev.apply [98]]
      = ((docSequence bC6.fileToGenericResource).map Prod.snd).filter
          (fun d => predicateOkTrue collEx.predicate d) ∧
    appliedDocs [Ev.collect 0 [97], Ev.apply [98]]
      = ((docSequence bC6.fileToGenericResource).map Prod.snd).filter
          (fun d => passesFilter bC6.applyFilter d) :=
  ⟨(c6_collectors_observe_all bC6 bC6 [Ev.collect 0 [97], Ev.apply [98]]
      rfl (by decide)).1 0 collEx rfl,
   (c6_collectors_observe_all bC6 bC6 [Ev.collect 0 [97], Ev.apply [98]]
      rfl (by decide)).2⟩

theorem processDocs_error (ab : Builder) :
    ∀ (l : List (String × List Nat)) (e : GoErr) (ev : List Ev),
      processDocs ab l = (.error e, ev) →
      ∃ pre fd post evPre evFd,
        l = pre ++ fd :: post ∧
        processDocs ab pre = (.ok (), evPre) ∧
        applyDoc ab fd.1 fd.2 = (.error e, evFd) ∧
        ev = evPre ++ evFd := by
  intro l
  induction l with
  | nil =>
    intro e ev h
    simp only [processDocs] at h
    exact absurd h (by simp)
  | cons p rest ih =>
    intro e ev h
    obtain ⟨fn, d⟩ := p
    cases ha : applyDoc ab fn d with
    | mk r1 ev1 =>
      cases r1 with
      | error e1 =>
        simp only [processDocs, ha] at h
        simp only [Prod.mk.injEq, Except.error.injEq] at h
        obtain ⟨h1, h2⟩ := h
        subst h1
        subst h2
        exact ⟨[], (fn, d), rest, [], ev1, by simp, rfl, ha, by simp⟩
      | ok u1 =>
        simp only [processDocs, ha] at h
        cases hr : processDocs ab rest with
        | mk r2 ev2 =>
          rw [hr] at h
          simp only [Prod.mk.injEq] at h
          obtain ⟨h1, h2⟩ := h
          subst h2
          obtain ⟨pre, fd, post, evPre, evFd, hl, hpre, hfd, hev⟩ :=
            ih e ev2 (by rw [hr, h1])
          refine ⟨(fn, d) :: pre, fd, post, ev1 ++ evPre, evFd,
            by simp [hl], ?_, hfd, by rw [hev, List.append_assoc]⟩
          simp only [processDocs, ha, hpre]

/-- C7: `ExecuteApply` is fail-fast.  A render failure aborts with that
error and an empty trace, so no document from any file is applied.  A
failure while processing documents means the document sequence splits into
fully processed documents `pre`, the failing document `fd` whose wrapped
error is returned unchanged, and untouched documents `post` that
contribute nothing to the trace: the whole trace is the trace of `pre`
(whose already-made apply calls remain — nothing is undone) followed by
the failing document's partial trace. -/
theorem c7_fail_fast (ab : Builder) :
    (∀ e, renderTemplates ab = .error e → ExecuteApply ab = (.error e, [])) ∧
    (∀ ab2 e ev, renderTemplates ab = .ok ab2 →
      ExecuteApply ab = (.error e, ev) →
      ∃ pre fd post evPre evFd,
        docSequence ab2.fileToGenericResource = pre ++ fd :: post ∧
        processDocs ab2 pre = (.ok (), evPre) ∧
        applyDoc ab2 fd.1 fd.2 = (.error e, evFd) ∧
        ev = evPre ++ evFd ∧
        appliedDocs ev = appliedDocs evPre ++ appliedDocs evFd) := by
  constructor
  · intro e he
    unfold ExecuteApply
    rw [he]
  · intro ab2 e ev hrender hrun
    unfold ExecuteApply at hrun
    simp only [hrender] at hrun
    obtain ⟨pre, fd, post, evPre, evFd, h1, h2, h3, h4⟩ :=
      processDocs_error ab2 _ e ev hrun
    exact ⟨pre, fd, post, evPre, evFd, h1, h2, h3, h4,
      by rw [h4, appliedDocs_append]⟩

/-- Builder of the C7 witness: the applier fails on the second of two
documents. -/
def bC7 : Builder :=
  ⟨fun d _ _ => if d = [98] then .error (.base "boom") else .ok (),
    [("f", [97, 45, 45, 45, 10, 98])], [], none, "ns", [], none⟩

/-- The error `ExecuteApply bC7` reports. -/
def errC7 : GoErr :=
  .wrapped "resource application failed for file f" (.base "boom")

/-- The trace `ExecuteApply bC7` leaves: the first document was applied
and stays applied, the failing apply call is recorded, nothing follows. -/
def evC7 : List Ev := [.apply [97], .apply [98]]

/-- Witness for C7 at a concrete failing run. -/
theorem c7_fail_fast_witness :
    ∃ pre fd post evPre evFd,
      docSequence bC7.fileToGenericResource = pre ++ fd :: post ∧
      processDocs bC7 pre = (.ok (), evPre) ∧
      applyDoc bC7 fd.1 fd.2 = (.error errC7, evFd) ∧
      evC7 = evPre ++ evFd ∧
      appliedDocs evC7 = appliedDocs evPre ++ appliedDocs evFd :=
  (c7_fail_fast bC7).2 bC7 errC7 evC7 rfl (by decide)

end K8sApplyLib
